import Mathlib

/-
  Verification development for the GM-PENCIL raster-drawing application
  (src/main.py).  The two algorithmic cores are modelled:

  * the flood-fill operation `Canvas.bucket_fill` (src/main.py:130-168),
    a scanline seed fill over the pixel buffer, and
  * the undo/redo history `Canvas.save_state` / `Canvas.undo` /
    `Canvas.redo` / `Canvas.clear` (src/main.py:93-114), a bounded
    snapshot stack pair.

  Machine integers of the source are modelled as `Nat` (coordinates and
  colour channels are nonnegative and small; no arithmetic in the source
  can overflow or go negative at the points modelled, and every negative
  guard of the source is noted where it becomes vacuous).  The Python
  `while` loops of `bucket_fill` are modelled with explicit fuel: the
  source has no fuel, so "the loop terminates" is rendered as
  "some fuel makes the model return `some _`".
-/

/-- An RGBA colour as held by Qt's `QColor`: four channels in 0..255.
`QColor.__eq__` compares all components, which is modelled by structural
equality of this structure. -/
structure Color where
  red : Nat
  green : Nat
  blue : Nat
  alpha : Nat
deriving DecidableEq, Repr

/-- The pixel buffer of the canvas (`QImage` view of `self.pixmap`),
as a total map from (x, y) coordinates to colours.  `img.pixelColor x y`
of the source is `img x y` here; the source only ever reads in-bounds
coordinates. -/
def Image : Type := Nat → Nat → Color

/-- `img.setPixelColor(x, y, c)` of src/main.py:161, functionally. -/
def setPixel (img : Image) (x y : Nat) (c : Color) : Image :=
  fun x' y' => if x' = x ∧ y' = y then c else img x' y'

/-- The nested helper `similar` of src/main.py:139-142:
componentwise closeness of the RGB channels within `tol`
(default 10); the alpha channel is never consulted. -/
def similar (c1 c2 : Color) (tol : Nat := 10) : Bool :=
  decide (((c1.red : Int) - (c2.red : Int)).natAbs ≤ tol) &&
  decide (((c1.green : Int) - (c2.green : Int)).natAbs ≤ tol) &&
  decide (((c1.blue : Int) - (c2.blue : Int)).natAbs ≤ tol)

/-- The left-extension loop of src/main.py:153-155:
`while left > 0 and similar(img.pixelColor(left - 1, y), target): left -= 1`.
Structural recursion on `left` itself. -/
def extendLeft (img : Image) (y : Nat) (target : Color) : Nat → Nat
  | 0 => 0
  | x + 1 => if similar (img x y) target = true then extendLeft img y target x else x + 1

/-- Body of the right-extension loop of src/main.py:156-158, recursing on
the remaining room `k`; the caller passes `k = width - 1 - x`, so `k = 0`
is exactly the source's stopping test `right < width - 1` failing, and
each step keeps `x + k = width - 1`. -/
def extendRightAux (img : Image) (y : Nat) (target : Color) : Nat → Nat → Nat
  | 0, x => x
  | k + 1, x =>
    if similar (img (x + 1) y) target = true then extendRightAux img y target k (x + 1) else x

/-- The right-extension loop of src/main.py:156-158:
`while right < width - 1 and similar(img.pixelColor(right + 1, y), target): right += 1`. -/
def extendRight (img : Image) (width y : Nat) (target : Color) (x : Nat) : Nat :=
  extendRightAux img y target (width - 1 - x) x

/-- One iteration of the span loop of src/main.py:160-165 at column `i`:
recolour pixel `(i, y)`, then push `(i, y-1)` when `y > 0` and the pixel
above (read from the already partially recoloured image, as the source
does) is similar to the target, then push `(i, y+1)` under the symmetric
guard.  The stack top is the list head (Python appends to and pops from
the list end). -/
def spanStep (height : Nat) (target repl : Color) (y : Nat)
    (acc : Image × List (Nat × Nat)) (i : Nat) : Image × List (Nat × Nat) :=
  let img := setPixel acc.1 i y repl
  let s1 := if 0 < y ∧ similar (img i (y - 1)) target = true then (i, y - 1) :: acc.2 else acc.2
  let s2 :=
    if y < height - 1 ∧ similar (img i (y + 1)) target = true then (i, y + 1) :: s1 else s1
  (img, s2)

/-- The work-queue loop of src/main.py:145-165, with explicit fuel.
Pops a point (list head = Python list end); skips it when out of bounds
(the source's `x < 0`/`y < 0` halves are vacuous over `Nat`) or when not
similar to the target; otherwise extends the span left and right and runs
the span loop `for i in range(left, right + 1)`.  `none` means the loop
did not finish within `fuel` iterations. -/
def fillLoop (width height : Nat) (target repl : Color) :
    Nat → Image → List (Nat × Nat) → Option Image
  | _, img, [] => some img
  | 0, _, _ :: _ => none
  | fuel + 1, img, (x, y) :: rest =>
    if width ≤ x ∨ height ≤ y then fillLoop width height target repl fuel img rest
    else if similar (img x y) target = true then
      let left := extendLeft img y target x
      let right := extendRight img width y target x
      let res := (List.range' left (right + 1 - left)).foldl
        (spanStep height target repl y) (img, rest)
      fillLoop width height target repl fuel res.1 res.2
    else fillLoop width height target repl fuel img rest

/-- `Canvas.bucket_fill` of src/main.py:130-168.  `target_color` is the
seed pixel's colour; the guard `target_color == replacement_color` is
full `QColor` equality (all four channels).  When the guard fires the
source returns with the pixmap untouched, modelled as `some img`. -/
def bucket_fill (width height : Nat) (img : Image) (start_point : Nat × Nat)
    (pen_color : Color) (fuel : Nat) : Option Image :=
  let target_color := img start_point.1 start_point.2
  if target_color = pen_color then some img
  else fillLoop width height target_color pen_color fuel img [start_point]

/-- `bucket_fill` terminates on the given configuration: some amount of
fuel suffices for the work-queue loop to empty. -/
def FillTerminates (width height : Nat) (img : Image) (start_point : Nat × Nat)
    (pen_color : Color) : Prop :=
  ∃ fuel res, bucket_fill width height img start_point pen_color fuel = some res

/-- The canvas state relevant to history management (src/main.py:32-35):
the live buffer `self.pixmap`, the undo stack `self.history` and the redo
stack `self.redo_stack`.  Snapshots (`self.pixmap.copy()`) are opaque
immutable values, so the buffer type is a parameter; the stack top is the
list head (Python appends to and pops from the list end, and
`pop(0)` — eviction of the oldest — is `dropLast` here). -/
structure Canvas (α : Type) where
  pixmap : α
  history : List α
  redo_stack : List α
deriving DecidableEq, Repr

/-- `Canvas.save_state` of src/main.py:93-97: push a copy of the buffer
onto the undo stack, evict the oldest entry when the stack now exceeds 50,
and clear the redo stack. -/
def save_state {α : Type} (s : Canvas α) : Canvas α :=
  let h := s.pixmap :: s.history
  { pixmap := s.pixmap
    history := if 50 < h.length then h.dropLast else h
    redo_stack := [] }

/-- `Canvas.undo` of src/main.py:99-103: when the undo stack is nonempty,
push a copy of the buffer onto the redo stack and pop the undo stack into
the buffer; otherwise do nothing. -/
def undo {α : Type} (s : Canvas α) : Canvas α :=
  match s.history with
  | [] => s
  | top :: rest =>
    { pixmap := top, history := rest, redo_stack := s.pixmap :: s.redo_stack }

/-- `Canvas.redo` of src/main.py:105-109: when the redo stack is nonempty,
push a copy of the buffer onto the undo stack (no capacity check) and pop
the redo stack into the buffer; otherwise do nothing. -/
def redo {α : Type} (s : Canvas α) : Canvas α :=
  match s.redo_stack with
  | [] => s
  | top :: rest =>
    { pixmap := top, history := s.pixmap :: s.history, redo_stack := rest }

/-- `Canvas.clear` of src/main.py:111-114: record the current buffer, then
fill the buffer with the background colour. -/
def clear {α : Type} (white : α) (s : Canvas α) : Canvas α :=
  let s' := save_state s
  { s' with pixmap := white }

/-- A content-mutating action that records the pre-mutation buffer via
`save_state` before mutating, as every tool of the source does
(src/main.py:60-66 calls `save_state` on mouse press, before drawing);
the mutation outcome is the new buffer value `b`. -/
def recordedAction {α : Type} (s : Canvas α) (b : α) : Canvas α :=
  let s' := save_state s
  { s' with pixmap := b }

/-- Run a sequence of recorded actions, each mutating the buffer to the
next listed value. -/
def runActions {α : Type} (s : Canvas α) (bs : List α) : Canvas α :=
  bs.foldl recordedAction s

/-- `undo` iterated `n` times. -/
def undoN {α : Type} : Nat → Canvas α → Canvas α
  | 0, s => s
  | n + 1, s => undoN n (undo s)

/-- A history operation the GUI can invoke (src/main.py:219-224):
`save_state` (start of any tool action), `undo`, `redo`, and `clear`
(which carries the background fill colour). -/
inductive HistOp (α : Type) where
  | save : HistOp α
  | doUndo : HistOp α
  | doRedo : HistOp α
  | doClear : α → HistOp α

/-- Apply one history operation. -/
def applyOp {α : Type} (s : Canvas α) : HistOp α → Canvas α
  | .save => save_state s
  | .doUndo => undo s
  | .doRedo => redo s
  | .doClear w => clear w s

/-- Run a sequence of history operations. -/
def runOps {α : Type} (s : Canvas α) (ops : List (HistOp α)) : Canvas α :=
  ops.foldl applyOp s

/-- The canvas as constructed (src/main.py:32-35): some initial buffer,
empty undo stack, empty redo stack. -/
def initCanvas {α : Type} (p : α) : Canvas α :=
  { pixmap := p, history := [], redo_stack := [] }

/-- The snapshots pushed by `runActions s bs`, newest first: the
pre-mutation buffer of each action.  Starting buffer `p`, mutations `bs`:
the pushes are `p, b1, ..., b(n-1)` in push order, so newest-first this is
`snapsRev p bs`. -/
def snapsRev {α : Type} (p : α) : List α → List α
  | [] => []
  | b :: bs => snapsRev b bs ++ [p]

/-! ### Basic facts about the history operations -/

theorem undo_of_history_nil {α : Type} (s : Canvas α) (h : s.history = []) :
    undo s = s := by
  obtain ⟨p, hist, r⟩ := s
  change hist = [] at h
  subst h
  rfl

theorem undo_of_history_cons {α : Type} (s : Canvas α) (t : α) (rest : List α)
    (h : s.history = t :: rest) :
    undo s = { pixmap := t, history := rest, redo_stack := s.pixmap :: s.redo_stack } := by
  obtain ⟨p, hist, r⟩ := s
  change hist = t :: rest at h
  subst h
  rfl

theorem redo_of_redo_nil {α : Type} (s : Canvas α) (h : s.redo_stack = []) :
    redo s = s := by
  obtain ⟨p, hist, r⟩ := s
  change r = [] at h
  subst h
  rfl

theorem redo_of_redo_cons {α : Type} (s : Canvas α) (t : α) (rest : List α)
    (h : s.redo_stack = t :: rest) :
    redo s = { pixmap := t, history := s.pixmap :: s.history, redo_stack := rest } := by
  obtain ⟨p, hist, r⟩ := s
  change r = t :: rest at h
  subst h
  rfl

theorem snapsRev_length {α : Type} (p : α) (bs : List α) :
    (snapsRev p bs).length = bs.length := by
  induction bs generalizing p with
  | nil => rfl
  | cons b bs ih => simp [snapsRev, ih]

/-- The undo stack after a run of recorded actions: the pushed snapshots
(newest first) sit on top of what is left of the initial stack.  The
bound `P.length + bs.length ≤ 50` keeps the eviction in `save_state` from
ever reaching the `P ++` (pushed) part: eviction drops the oldest entry,
which then still belongs to `O`. -/
theorem runActions_history {α : Type} :
    ∀ (bs : List α) (P O : List α) (s : Canvas α),
      s.history = P ++ O → P.length + bs.length ≤ 50 →
      ∃ O2, (runActions s bs).history = snapsRev s.pixmap bs ++ (P ++ O2)
  | [], _, O, s, hh, _ => ⟨O, by simpa [runActions, snapsRev] using hh⟩
  | b :: bs, P, O, s, hh, hlen => by
    have hstep : runActions s (b :: bs) = runActions (recordedAction s b) bs := rfl
    have hpix : (recordedAction s b).pixmap = b := rfl
    rcases Nat.lt_or_ge 50 (s.pixmap :: s.history).length with hc | hc
    · -- the push overflows: the oldest entry of `O` is evicted
      have hO : O ≠ [] := by
        intro h0
        subst h0
        rw [hh, List.append_nil] at hc
        have h1 : (s.pixmap :: P).length = P.length + 1 := List.length_cons _ _
        have h2 : (b :: bs).length = bs.length + 1 := List.length_cons _ _
        omega
      have hhist : (recordedAction s b).history = (s.pixmap :: P) ++ O.dropLast := by
        show (if 50 < (s.pixmap :: s.history).length
              then (s.pixmap :: s.history).dropLast else s.pixmap :: s.history)
            = (s.pixmap :: P) ++ O.dropLast
        rw [if_pos hc, hh, show s.pixmap :: (P ++ O) = (s.pixmap :: P) ++ O from rfl,
          List.dropLast_append_of_ne_nil _ hO]
      obtain ⟨O2, hO2⟩ := runActions_history bs (s.pixmap :: P) O.dropLast
        (recordedAction s b) hhist
        (by simp only [List.length_cons] at hlen ⊢; omega)
      refine ⟨O2, ?_⟩
      rw [hstep, hO2, hpix]
      simp [snapsRev]
    · -- no eviction
      have hhist : (recordedAction s b).history = (s.pixmap :: P) ++ O := by
        show (if 50 < (s.pixmap :: s.history).length
              then (s.pixmap :: s.history).dropLast else s.pixmap :: s.history)
            = (s.pixmap :: P) ++ O
        rw [if_neg (by omega), hh]
        rfl
      obtain ⟨O2, hO2⟩ := runActions_history bs (s.pixmap :: P) O
        (recordedAction s b) hhist
        (by simp only [List.length_cons] at hlen ⊢; omega)
      refine ⟨O2, ?_⟩
      rw [hstep, hO2, hpix]
      simp [snapsRev]

/-- Undoing as many times as there are entries on top of the undo stack
pops exactly those entries, leaving the buffer at the deepest one. -/
theorem undoN_append {α : Type} :
    ∀ (L O : List α) (s : Canvas α), s.history = L ++ O →
      (undoN L.length s).pixmap = L.getLastD s.pixmap
  | [], _, _, _ => rfl
  | t :: L, O, s, hh => by
    have hu := undo_of_history_cons s t (L ++ O) hh
    have hstep : undoN (t :: L).length s = undoN L.length (undo s) := rfl
    rw [hstep, hu, undoN_append L O _ rfl, List.getLastD_cons]

/-- One history operation preserves the bound
`|undo stack| + |redo stack| ≤ 50`:  `save_state` (and hence `clear`)
caps the undo stack at 50 and empties the redo stack, while `undo` and
`redo` move one snapshot between the stacks. -/
theorem applyOp_sum_le {α : Type} (s : Canvas α) (op : HistOp α)
    (h : s.history.length + s.redo_stack.length ≤ 50) :
    (applyOp s op).history.length + (applyOp s op).redo_stack.length ≤ 50 := by
  have hsave : (save_state s).history.length + (save_state s).redo_stack.length ≤ 50 := by
    show (if 50 < (s.pixmap :: s.history).length
          then (s.pixmap :: s.history).dropLast else s.pixmap :: s.history).length
        + ([] : List α).length ≤ 50
    have h1 : (s.pixmap :: s.history).length = s.history.length + 1 := List.length_cons _ _
    split
    · rw [List.length_dropLast]
      simp only [List.length_nil]
      omega
    · simp only [List.length_nil]
      omega
  cases op with
  | save => exact hsave
  | doUndo =>
    show (undo s).history.length + (undo s).redo_stack.length ≤ 50
    rcases hh : s.history with _ | ⟨t, rest⟩
    · rw [undo_of_history_nil s hh]
      exact h
    · rw [undo_of_history_cons s t rest hh]
      rw [hh] at h
      simp only [List.length_cons] at h ⊢
      omega
  | doRedo =>
    show (redo s).history.length + (redo s).redo_stack.length ≤ 50
    rcases hh : s.redo_stack with _ | ⟨t, rest⟩
    · rw [redo_of_redo_nil s hh]
      exact h
    · rw [redo_of_redo_cons s t rest hh]
      rw [hh] at h
      simp only [List.length_cons] at h ⊢
      omega
  | doClear w =>
    show (save_state s).history.length + (save_state s).redo_stack.length ≤ 50
    exact hsave

/-- The bound `|undo stack| + |redo stack| ≤ 50` is preserved by every
sequence of history operations. -/
theorem runOps_sum_le {α : Type} (ops : List (HistOp α)) (s : Canvas α)
    (h : s.history.length + s.redo_stack.length ≤ 50) :
    (runOps s ops).history.length + (runOps s ops).redo_stack.length ≤ 50 := by
  induction ops generalizing s with
  | nil => exact h
  | cons op ops ih => exact ih (applyOp s op) (applyOp_sum_le s op h)

/-! ### Claim theorems: history management -/

/-- Claim C1: starting from buffer `B0 = s.pixmap`, running any sequence
of `N ≤ 50` content-mutating actions — each recording the pre-mutation
buffer via `save_state` before mutating — and then undoing `N` times
restores the buffer to `B0` exactly. -/
theorem undoN_runActions_restores {α : Type} (bs : List α) (s : Canvas α)
    (hN : bs.length ≤ 50) :
    (undoN bs.length (runActions s bs)).pixmap = s.pixmap := by
  obtain ⟨O2, hO2⟩ := runActions_history bs [] s.history s rfl (by simpa using hN)
  rw [List.nil_append] at hO2
  have hlen : bs.length = (snapsRev s.pixmap bs).length := (snapsRev_length _ _).symm
  rw [hlen, undoN_append (snapsRev s.pixmap bs) O2 _ hO2]
  cases bs with
  | nil => rfl
  | cons b bs' =>
    show (snapsRev b bs' ++ [s.pixmap]).getLastD _ = s.pixmap
    exact List.getLastD_concat _ _ _

/-- Witness for C1: three recorded actions then three undos bring the
buffer back to its initial value 7. -/
theorem undoN_runActions_restores_witness :
    (undoN 3 (runActions (⟨7, [], []⟩ : Canvas Nat) [1, 2, 3])).pixmap = 7 :=
  undoN_runActions_restores [1, 2, 3] ⟨7, [], []⟩ (by decide)

/-- Claim C4: in every state reachable from the initial empty history by
`save_state`/`undo`/`redo`/`clear`, the undo stack holds at most 50
snapshots; and pushing onto a full stack of 50 keeps the newest snapshot
at the top, drops the oldest, and stays at 50 (FIFO eviction at capacity),
while `undo` still pops the newest entry (LIFO pop). -/
theorem undo_stack_capacity {α : Type} (p : α) (ops : List (HistOp α)) (s : Canvas α)
    (h50 : s.history.length = 50) :
    (runOps (initCanvas p) ops).history.length ≤ 50 ∧
    (save_state s).history = s.pixmap :: s.history.dropLast ∧
    (save_state s).history.length = 50 ∧
    (undo (save_state s)).pixmap = s.pixmap := by
  have hne : s.history ≠ [] := by
    intro h0
    rw [h0] at h50
    cases h50
  have hevict : (save_state s).history = s.pixmap :: s.history.dropLast := by
    show (if 50 < (s.pixmap :: s.history).length
          then (s.pixmap :: s.history).dropLast else s.pixmap :: s.history)
        = s.pixmap :: s.history.dropLast
    rw [if_pos (by simp [h50]),
      show s.pixmap :: s.history = [s.pixmap] ++ s.history from rfl,
      List.dropLast_append_of_ne_nil _ hne]
    rfl
  refine ⟨?_, hevict, ?_, ?_⟩
  · have := runOps_sum_le ops (initCanvas p) (by simp [initCanvas])
    omega
  · rw [hevict]
    simp only [List.length_cons, List.length_dropLast, h50]
  · rw [undo_of_history_cons (save_state s) s.pixmap s.history.dropLast hevict]

/-- Witness for C4: a concrete canvas whose undo stack already holds 50
snapshots. -/
theorem undo_stack_capacity_witness :
    (runOps (initCanvas (0 : Nat)) [HistOp.save]).history.length ≤ 50 ∧
    (save_state (⟨7, List.replicate 50 0, []⟩ : Canvas Nat)).history
      = 7 :: (List.replicate 50 (0 : Nat)).dropLast ∧
    (save_state (⟨7, List.replicate 50 0, []⟩ : Canvas Nat)).history.length = 50 ∧
    (undo (save_state (⟨7, List.replicate 50 0, []⟩ : Canvas Nat))).pixmap = 7 :=
  undo_stack_capacity 0 [HistOp.save] ⟨7, List.replicate 50 0, []⟩ (by simp)

/-- Claim C5: whenever the undo stack is nonempty, `undo` immediately
followed by `redo` leaves the buffer contents exactly as they were. -/
theorem undo_redo_roundtrip {α : Type} (s : Canvas α) (h : s.history ≠ []) :
    (redo (undo s)).pixmap = s.pixmap := by
  rcases hh : s.history with _ | ⟨t, rest⟩
  · exact absurd hh h
  · rw [undo_of_history_cons s t rest hh]
    rfl

/-- Witness for C5: a concrete canvas with one undo entry. -/
theorem undo_redo_roundtrip_witness :
    (redo (undo (⟨5, [9], []⟩ : Canvas Nat))).pixmap = 5 :=
  undo_redo_roundtrip ⟨5, [9], []⟩ (by decide)

/-- Claim C8: `save_state` always empties the redo stack, and a `redo`
performed immediately afterwards is a no-op on the whole state (buffer
and both stacks). -/
theorem save_state_clears_redo {α : Type} (s : Canvas α) :
    (save_state s).redo_stack = [] ∧ redo (save_state s) = save_state s :=
  ⟨rfl, redo_of_redo_nil _ rfl⟩

/-- Claim C9: `undo` on an empty undo stack leaves the whole state
(buffer and redo stack) unchanged, and `redo` on an empty redo stack
leaves the whole state (buffer and undo stack) unchanged. -/
theorem empty_history_noop {α : Type} (s : Canvas α) :
    (s.history = [] → undo s = s) ∧ (s.redo_stack = [] → redo s = s) :=
  ⟨undo_of_history_nil s, redo_of_redo_nil s⟩

/-- Witness for C9: concrete empty-history canvas. -/
theorem empty_history_noop_witness :
    undo (⟨5, [], []⟩ : Canvas Nat) = ⟨5, [], []⟩ ∧
    redo (⟨5, [], []⟩ : Canvas Nat) = ⟨5, [], []⟩ :=
  ⟨(empty_history_noop ⟨5, [], []⟩).1 rfl, (empty_history_noop ⟨5, [], []⟩).2 rfl⟩

/-- Claim C10: in every state reachable from the initial empty history,
the undo-stack length plus the redo-stack length is at most 50; in
particular the redo stack never exceeds 50 entries, even though `redo`
pushes onto the undo stack with no capacity check. -/
theorem history_redo_sum_bounded {α : Type} (p : α) (ops : List (HistOp α)) :
    (runOps (initCanvas p) ops).history.length
      + (runOps (initCanvas p) ops).redo_stack.length ≤ 50 ∧
    (runOps (initCanvas p) ops).redo_stack.length ≤ 50 := by
  have := runOps_sum_le ops (initCanvas p) (by simp [initCanvas])
  exact ⟨this, by omega⟩

/-! ### Basic facts about the flood-fill building blocks -/

theorem setPixel_off_row (img : Image) (i y : Nat) (c : Color) (x' y' : Nat)
    (h : y' ≠ y) : setPixel img i y c x' y' = img x' y' := by
  unfold setPixel
  rw [if_neg]
  rintro ⟨-, h2⟩
  exact h h2

theorem setPixel_cases (img : Image) (i y : Nat) (c : Color) (x' y' : Nat) :
    setPixel img i y c x' y' = c ∨ setPixel img i y c x' y' = img x' y' := by
  unfold setPixel
  split
  · exact Or.inl rfl
  · exact Or.inr rfl

theorem extendLeft_le (img : Image) (y : Nat) (target : Color) (x : Nat) :
    extendLeft img y target x ≤ x := by
  induction x with
  | zero => exact Nat.le_refl 0
  | succ x ih =>
    show (if similar (img x y) target = true
          then extendLeft img y target x else x + 1) ≤ x + 1
    split
    · exact Nat.le_trans ih (Nat.le_succ x)
    · exact Nat.le_refl _

/-- Every pixel strictly between the result of the left extension and the
start column (on row `y`) passed the similarity test. -/
theorem extendLeft_sim (img : Image) (y : Nat) (target : Color) (x : Nat) :
    ∀ j, extendLeft img y target x ≤ j → j < x → similar (img j y) target = true := by
  induction x with
  | zero => exact fun j _ hj => absurd hj (Nat.not_lt_zero j)
  | succ x ih =>
    intro j hle hlt
    by_cases hs : similar (img x y) target = true
    · have he : extendLeft img y target (x + 1) = extendLeft img y target x := by
        show (if similar (img x y) target = true then _ else _) = _
        rw [if_pos hs]
      rw [he] at hle
      rcases Nat.lt_or_ge j x with h | h
      · exact ih j hle h
      · have hj : j = x := Nat.le_antisymm (Nat.lt_succ_iff.mp hlt) h
        rw [hj]
        exact hs
    · have he : extendLeft img y target (x + 1) = x + 1 := by
        show (if similar (img x y) target = true then _ else _) = _
        rw [if_neg hs]
      rw [he] at hle
      omega

theorem extendRightAux_ge (img : Image) (y : Nat) (target : Color) :
    ∀ k x, x ≤ extendRightAux img y target k x
  | 0, x => Nat.le_refl x
  | k + 1, x => by
    show x ≤ (if similar (img (x + 1) y) target = true
              then extendRightAux img y target k (x + 1) else x)
    split
    · exact Nat.le_trans (Nat.le_succ x) (extendRightAux_ge img y target k (x + 1))
    · exact Nat.le_refl x

theorem extendRightAux_le (img : Image) (y : Nat) (target : Color) :
    ∀ k x, extendRightAux img y target k x ≤ x + k
  | 0, x => Nat.le_refl x
  | k + 1, x => by
    show (if similar (img (x + 1) y) target = true
          then extendRightAux img y target k (x + 1) else x) ≤ x + (k + 1)
    split
    · have := extendRightAux_le img y target k (x + 1)
      omega
    · omega

/-- Every pixel strictly between the start column and the result of the
right extension (on row `y`) passed the similarity test. -/
theorem extendRightAux_sim (img : Image) (y : Nat) (target : Color) :
    ∀ k x j, x < j → j ≤ extendRightAux img y target k x →
      similar (img j y) target = true
  | 0, x, j, hlt, hle => absurd (Nat.lt_of_lt_of_le hlt hle) (Nat.lt_irrefl x)
  | k + 1, x, j, hlt, hle => by
    by_cases hs : similar (img (x + 1) y) target = true
    · have he : extendRightAux img y target (k + 1) x
          = extendRightAux img y target k (x + 1) := by
        show (if similar (img (x + 1) y) target = true then _ else _) = _
        rw [if_pos hs]
      rw [he] at hle
      rcases Nat.lt_or_ge (x + 1) j with h | h
      · exact extendRightAux_sim img y target k (x + 1) j h hle
      · have hj : j = x + 1 := Nat.le_antisymm h hlt
        rw [hj]
        exact hs
    · have he : extendRightAux img y target (k + 1) x = x := by
        show (if similar (img (x + 1) y) target = true then _ else _) = _
        rw [if_neg hs]
      rw [he] at hle
      omega

theorem extendRight_ge (img : Image) (width y : Nat) (target : Color) (x : Nat) :
    x ≤ extendRight img width y target x :=
  extendRightAux_ge img y target (width - 1 - x) x

theorem extendRight_lt (img : Image) (width y : Nat) (target : Color) (x : Nat)
    (hx : x < width) : extendRight img width y target x < width := by
  have := extendRightAux_le img y target (width - 1 - x) x
  unfold extendRight
  omega

theorem extendRight_sim (img : Image) (width y : Nat) (target : Color) (x : Nat) :
    ∀ j, x < j → j ≤ extendRight img width y target x →
      similar (img j y) target = true :=
  fun j h1 h2 => extendRightAux_sim img y target (width - 1 - x) x j h1 h2

theorem spanStep_fst (height : Nat) (target repl : Color) (y : Nat)
    (acc : Image × List (Nat × Nat)) (i : Nat) :
    (spanStep height target repl y acc i).1 = setPixel acc.1 i y repl := rfl

theorem spanStep_snd_sub (height : Nat) (target repl : Color) (y : Nat)
    (acc : Image × List (Nat × Nat)) (i : Nat) (p : Nat × Nat) (hp : p ∈ acc.2) :
    p ∈ (spanStep height target repl y acc i).2 := by
  show p ∈ (if y < height - 1 ∧ _ then (i, y + 1) :: (if 0 < y ∧ _ then (i, y - 1) :: acc.2 else acc.2)
            else (if 0 < y ∧ _ then (i, y - 1) :: acc.2 else acc.2))
  split <;> split <;> simp [hp]

theorem spanStep_snd_mem (height : Nat) (target repl : Color) (y : Nat)
    (acc : Image × List (Nat × Nat)) (i : Nat) (p : Nat × Nat)
    (hp : p ∈ (spanStep height target repl y acc i).2) :
    p ∈ acc.2 ∨ (0 < y ∧ p = (i, y - 1)) ∨ (y < height - 1 ∧ p = (i, y + 1)) := by
  have hp' : p ∈ (if y < height - 1 ∧ similar (setPixel acc.1 i y repl i (y + 1)) target = true
      then (i, y + 1) :: (if 0 < y ∧ similar (setPixel acc.1 i y repl i (y - 1)) target = true
            then (i, y - 1) :: acc.2 else acc.2)
      else (if 0 < y ∧ similar (setPixel acc.1 i y repl i (y - 1)) target = true
            then (i, y - 1) :: acc.2 else acc.2)) := hp
  clear hp
  split at hp' <;> rename_i h2 <;> [skip; skip] <;> first
  | (rcases List.mem_cons.mp hp' with h | hp'' <;>
      [exact Or.inr (Or.inr ⟨h2.1, h⟩); skip] <;>
     (split at hp'' <;> rename_i h1 <;>
      [rcases List.mem_cons.mp hp'' with h | h <;>
        [exact Or.inr (Or.inl ⟨h1.1, h⟩); exact Or.inl h];
       exact Or.inl hp'']))
  | (split at hp' <;> rename_i h1 <;>
      [rcases List.mem_cons.mp hp' with h | h <;>
        [exact Or.inr (Or.inl ⟨h1.1, h⟩); exact Or.inl h];
       exact Or.inl hp'])

theorem spanFold_snd_sub (height : Nat) (target repl : Color) (y : Nat) :
    ∀ (cols : List Nat) (acc : Image × List (Nat × Nat)) (p : Nat × Nat),
      p ∈ acc.2 → p ∈ (cols.foldl (spanStep height target repl y) acc).2
  | [], _, _, hp => hp
  | i :: cols, acc, p, hp =>
    spanFold_snd_sub height target repl y cols _ p
      (spanStep_snd_sub height target repl y acc i p hp)

theorem spanFold_snd_mem (height : Nat) (target repl : Color) (y : Nat) :
    ∀ (cols : List Nat) (acc : Image × List (Nat × Nat)) (p : Nat × Nat),
      p ∈ (cols.foldl (spanStep height target repl y) acc).2 →
      p ∈ acc.2 ∨ ∃ i ∈ cols, (0 < y ∧ p = (i, y - 1)) ∨ (y < height - 1 ∧ p = (i, y + 1))
  | [], _, _, hp => Or.inl hp
  | i :: cols, acc, p, hp => by
    rcases spanFold_snd_mem height target repl y cols _ p hp with h | ⟨j, hj, hcase⟩
    · rcases spanStep_snd_mem height target repl y acc i p h with h' | h'
      · exact Or.inl h'
      · exact Or.inr ⟨i, List.mem_cons_self i cols, h'⟩
    · exact Or.inr ⟨j, List.mem_cons_of_mem i hj, hcase⟩

/-- The span loop only writes to row `y`. -/
theorem spanFold_fst_off_row (height : Nat) (target repl : Color) (y : Nat) :
    ∀ (cols : List Nat) (acc : Image × List (Nat × Nat)) (x' y' : Nat), y' ≠ y →
      (cols.foldl (spanStep height target repl y) acc).1 x' y' = acc.1 x' y'
  | [], _, _, _, _ => rfl
  | i :: cols, acc, x', y', hy => by
    rw [show (i :: cols).foldl (spanStep height target repl y) acc
        = cols.foldl (spanStep height target repl y) (spanStep height target repl y acc i)
        from rfl]
    rw [spanFold_fst_off_row height target repl y cols _ x' y' hy, spanStep_fst,
      setPixel_off_row _ _ _ _ _ _ hy]

/-- Every pixel after the span loop is either untouched or holds the
replacement colour. -/
theorem spanFold_fst_cases (height : Nat) (target repl : Color) (y : Nat) :
    ∀ (cols : List Nat) (acc : Image × List (Nat × Nat)) (x' y' : Nat),
      (cols.foldl (spanStep height target repl y) acc).1 x' y' = acc.1 x' y' ∨
      (cols.foldl (spanStep height target repl y) acc).1 x' y' = repl
  | [], _, _, _ => Or.inl rfl
  | i :: cols, acc, x', y' => by
    rw [show (i :: cols).foldl (spanStep height target repl y) acc
        = cols.foldl (spanStep height target repl y) (spanStep height target repl y acc i)
        from rfl]
    rcases spanFold_fst_cases height target repl y cols
      (spanStep height target repl y acc i) x' y' with h | h
    · rw [h, spanStep_fst]
      rcases setPixel_cases acc.1 i y repl x' y' with h' | h'
      · exact Or.inr h'
      · exact Or.inl h'
    · exact Or.inr h

/-- When row `y` has an in-bounds vertical neighbour whose pixel is
similar to the target, the span step at column `i` pushes at least one
point, namely `(i, y-1)` or `(i, y+1)`. -/
theorem spanStep_pushes (height : Nat) (target repl : Color) (y : Nat)
    (acc : Image × List (Nat × Nat)) (i : Nat)
    (hh : 2 ≤ height) (_hy : y < height)
    (hup : 0 < y → similar (acc.1 i (y - 1)) target = true)
    (hdown : y < height - 1 → similar (acc.1 i (y + 1)) target = true) :
    ∃ q, q ∈ (spanStep height target repl y acc i).2 := by
  rcases Nat.eq_zero_or_pos y with hy0 | hy0
  · -- bottom row pushes downward
    have hcond : y < height - 1 := by omega
    have hsim : similar (setPixel acc.1 i y repl i (y + 1)) target = true := by
      rw [setPixel_off_row _ _ _ _ _ _ (by omega)]
      exact hdown hcond
    refine ⟨(i, y + 1), ?_⟩
    show (i, y + 1) ∈ (if y < height - 1 ∧ _ then (i, y + 1) :: _ else _)
    rw [if_pos ⟨hcond, hsim⟩]
    exact List.mem_cons_self _ _
  · -- interior or top row pushes upward
    have hsim : similar (setPixel acc.1 i y repl i (y - 1)) target = true := by
      rw [setPixel_off_row _ _ _ _ _ _ (by omega)]
      exact hup hy0
    have h1 : (i, y - 1) ∈ (if 0 < y ∧ similar (setPixel acc.1 i y repl i (y - 1)) target = true
        then (i, y - 1) :: acc.2 else acc.2) := by
      rw [if_pos ⟨hy0, hsim⟩]
      exact List.mem_cons_self _ _
    refine ⟨(i, y - 1), ?_⟩
    show (i, y - 1) ∈ (if y < height - 1 ∧ _ then (i, y + 1) :: _ else _)
    split
    · exact List.mem_cons_of_mem _ h1
    · exact h1

/-- Divergence of the work-queue loop: when the replacement colour itself
passes the similarity test against the target (which the guard of
src/main.py:136 does not rule out, since it tests exact equality while
`similar` allows a tolerance of 10), on a buffer at least two rows high
whose in-bounds pixels are all similar to the target, the loop never
empties its stack: every popped point recolours a span but re-pushes a
vertical neighbour that is still similar, for ever. -/
theorem fillLoop_diverges (width height : Nat) (target repl : Color)
    (hrep : similar repl target = true) (hh : 2 ≤ height) :
    ∀ (fuel : Nat) (img : Image) (stack : List (Nat × Nat)),
      stack ≠ [] →
      (∀ p ∈ stack, p.1 < width ∧ p.2 < height) →
      (∀ x y, x < width → y < height → similar (img x y) target = true) →
      fillLoop width height target repl fuel img stack = none := by
  intro fuel
  induction fuel with
  | zero =>
    intro img stack hne hb hsim
    cases stack with
    | nil => exact absurd rfl hne
    | cons p rest => rfl
  | succ fuel ih =>
    intro img stack hne hb hsim
    cases stack with
    | nil => exact absurd rfl hne
    | cons p rest =>
      obtain ⟨x, y⟩ := p
      have hx : x < width := (hb (x, y) (List.mem_cons_self _ _)).1
      have hy : y < height := (hb (x, y) (List.mem_cons_self _ _)).2
      show (if width ≤ x ∨ height ≤ y then fillLoop width height target repl fuel img rest
            else if similar (img x y) target = true then
              let left := extendLeft img y target x
              let right := extendRight img width y target x
              let res := (List.range' left (right + 1 - left)).foldl
                (spanStep height target repl y) (img, rest)
              fillLoop width height target repl fuel res.1 res.2
            else fillLoop width height target repl fuel img rest) = none
      rw [if_neg (by omega), if_pos (hsim x y hx hy)]
      have hle : extendLeft img y target x ≤ x := extendLeft_le img y target x
      have hge : x ≤ extendRight img width y target x := extendRight_ge img width y target x
      have hrw : extendRight img width y target x < width := extendRight_lt img width y target x hx
      have hlw : extendLeft img y target x < width := by omega
      set left := extendLeft img y target x with hleft
      set right := extendRight img width y target x with hright
      have hn : right + 1 - left = (right - left) + 1 := by omega
      have hcols : List.range' left (right + 1 - left)
          = left :: List.range' (left + 1) (right - left) := by
        rw [hn, List.range'_succ left (right - left) 1]
      set res := (List.range' left (right + 1 - left)).foldl
        (spanStep height target repl y) (img, rest) with hres
      have hfold : res = (List.range' (left + 1) (right - left)).foldl
          (spanStep height target repl y) (spanStep height target repl y (img, rest) left) := by
        rw [hres, hcols]
        rfl
      -- the popped point pushes a vertical neighbour, so the stack stays nonempty
      obtain ⟨q, hq⟩ := spanStep_pushes height target repl y (img, rest) left hh hy
        (fun h0 => hsim left (y - 1) hlw (by omega))
        (fun h0 => hsim left (y + 1) hlw (by omega))
      have hqres : q ∈ res.2 := by
        rw [hfold]
        exact spanFold_snd_sub height target repl y _ _ q hq
      apply ih res.1 res.2 (List.ne_nil_of_mem hqres)
      · -- every stacked point stays in bounds
        intro p hp
        rcases spanFold_snd_mem height target repl y _ _ p hp with hp' | ⟨i, hi, hcase⟩
        · exact hb p (List.mem_cons_of_mem _ hp')
        · have hib : left ≤ i ∧ i < left + (right + 1 - left) := List.mem_range'_1.mp hi
          have hiw : i < width := by omega
          rcases hcase with ⟨hy0, rfl⟩ | ⟨hyd, rfl⟩
          · exact ⟨hiw, by omega⟩
          · exact ⟨hiw, by omega⟩
      · -- every in-bounds pixel stays similar to the target
        intro x' y' hx' hy'
        rcases spanFold_fst_cases height target repl y _ _ x' y' with hc | hc
        · rw [hc]
          exact hsim x' y' hx' hy'
        · rw [hc]
          exact hrep

/-! ### Claim theorems: flood fill -/

/-- Claim C2 is violated by the code: `bucket_fill` does NOT terminate for
every buffer, in-bounds seed and fill colour.  At the failing input — a
1×2 all-black buffer, seed (0,0), pen colour (5,0,0,255) — the equality
guard of src/main.py:136 passes (the colours differ), yet the fill colour
is within tolerance 10 of the target, so every recoloured row keeps
re-seeding its neighbour row and the work queue never empties: no amount
of fuel makes the loop finish. -/
theorem bucket_fill_divergence_failing_input :
    ¬ FillTerminates 1 2 (fun _ _ => ⟨0, 0, 0, 255⟩) (0, 0) ⟨5, 0, 0, 255⟩ := by
  rintro ⟨fuel, res, h⟩
  simp only [bucket_fill] at h
  rw [if_neg (by decide)] at h
  rw [fillLoop_diverges 1 2 ⟨0, 0, 0, 255⟩ ⟨5, 0, 0, 255⟩ (by decide) (by omega) fuel
    (fun _ _ => ⟨0, 0, 0, 255⟩) [(0, 0)] (by simp) (by decide)
    (fun x y _ _ => (show similar ⟨0, 0, 0, 255⟩ ⟨0, 0, 0, 255⟩ = true by decide))] at h
  cases h

/-- Claim C3 is violated by the code: on a uniformly coloured buffer a
fill colour merely *different* from the seed colour does not suffice for
the fill to return — with fill colour (5,0,0,255) on a 3×3 all-black
buffer the loop runs for ever (first conjunct).  The spec's concrete
scenario does hold: filling the 3×3 all-black buffer from seed (1,1) with
(255,0,0,255) — not similar to black — terminates and recolours all nine
pixels (second and third conjuncts). -/
theorem bucket_fill_uniform_3x3 :
    (¬ FillTerminates 3 3 (fun _ _ => ⟨0, 0, 0, 255⟩) (1, 1) ⟨5, 0, 0, 255⟩) ∧
    (bucket_fill 3 3 (fun _ _ => ⟨0, 0, 0, 255⟩) (1, 1) ⟨255, 0, 0, 255⟩ 16).isSome = true ∧
    (∀ x, x < 3 → ∀ y, y < 3 →
      ((bucket_fill 3 3 (fun _ _ => ⟨0, 0, 0, 255⟩) (1, 1) ⟨255, 0, 0, 255⟩ 16).getD
        (fun _ _ => ⟨0, 0, 0, 255⟩)) x y = ⟨255, 0, 0, 255⟩) := by
  refine ⟨?_, by decide, by decide⟩
  rintro ⟨fuel, res, h⟩
  simp only [bucket_fill] at h
  rw [if_neg (by decide)] at h
  rw [fillLoop_diverges 3 3 ⟨0, 0, 0, 255⟩ ⟨5, 0, 0, 255⟩ (by decide) (by omega) fuel
    (fun _ _ => ⟨0, 0, 0, 255⟩) [(1, 1)] (by simp) (by decide)
    (fun x y _ _ => (show similar ⟨0, 0, 0, 255⟩ ⟨0, 0, 0, 255⟩ = true by decide))] at h
  cases h

/-- Claim C6: when the seed pixel's colour equals the fill colour
(`QColor` equality, all four channels), `bucket_fill` returns with the
buffer untouched. -/
theorem bucket_fill_noop_when_equal (width height fuel : Nat) (img : Image)
    (start_point : Nat × Nat) (pen_color : Color)
    (_hx : start_point.1 < width) (_hy : start_point.2 < height)
    (h : img start_point.1 start_point.2 = pen_color) :
    bucket_fill width height img start_point pen_color fuel = some img := by
  simp only [bucket_fill]
  rw [if_pos h]

/-- Witness for C6: filling a white 1×1 buffer with white is a no-op. -/
theorem bucket_fill_noop_when_equal_witness :
    bucket_fill 1 1 (fun _ _ => ⟨255, 255, 255, 255⟩) (0, 0) ⟨255, 255, 255, 255⟩ 3
      = some (fun _ _ => ⟨255, 255, 255, 255⟩) :=
  bucket_fill_noop_when_equal 1 1 3 (fun _ _ => ⟨255, 255, 255, 255⟩) (0, 0)
    ⟨255, 255, 255, 255⟩ (by omega) (by omega) rfl

/-- Invariant of the work-queue loop relating the current image to the
original one: every pixel is either untouched, or was similar to the
target colour and now holds the replacement colour. -/
def FillInv (img0 : Image) (target repl : Color) (cur : Image) : Prop :=
  ∀ x y, cur x y = img0 x y ∨ (similar (img0 x y) target = true ∧ cur x y = repl)

theorem spanStep_inv (height : Nat) (target repl : Color) (y : Nat) (img0 : Image)
    (acc : Image × List (Nat × Nat)) (i : Nat)
    (hsim : similar (img0 i y) target = true)
    (hinv : FillInv img0 target repl acc.1) :
    FillInv img0 target repl (spanStep height target repl y acc i).1 := by
  rw [spanStep_fst]
  intro x' y'
  unfold setPixel
  split
  · rename_i hc
    right
    refine ⟨?_, rfl⟩
    rw [hc.1, hc.2]
    exact hsim
  · exact hinv x' y'

theorem spanFold_inv (height : Nat) (target repl : Color) (y : Nat) (img0 : Image) :
    ∀ (cols : List Nat) (acc : Image × List (Nat × Nat)),
      (∀ i ∈ cols, similar (img0 i y) target = true) →
      FillInv img0 target repl acc.1 →
      FillInv img0 target repl ((cols.foldl (spanStep height target repl y) acc).1)
  | [], _, _, hinv => hinv
  | i :: cols, acc, hcols, hinv =>
    spanFold_inv height target repl y img0 cols _
      (fun j hj => hcols j (List.mem_cons_of_mem i hj))
      (spanStep_inv height target repl y img0 acc i
        (hcols i (List.mem_cons_self i cols)) hinv)

/-- Whenever the work-queue loop finishes, the invariant carries over to
the final image: only pixels whose original colour was similar to the
target have been written, and those hold the replacement colour. -/
theorem fillLoop_inv (width height : Nat) (target repl : Color) (img0 : Image) :
    ∀ (fuel : Nat) (img : Image) (stack : List (Nat × Nat)) (res : Image),
      FillInv img0 target repl img →
      fillLoop width height target repl fuel img stack = some res →
      FillInv img0 target repl res := by
  intro fuel
  induction fuel with
  | zero =>
    intro img stack res hinv h
    cases stack with
    | nil =>
      cases h
      exact hinv
    | cons p rest => exact Option.noConfusion h
  | succ fuel ih =>
    intro img stack res hinv h
    cases stack with
    | nil =>
      cases h
      exact hinv
    | cons p rest =>
      obtain ⟨x, y⟩ := p
      have h' : (if width ≤ x ∨ height ≤ y then
            fillLoop width height target repl fuel img rest
          else if similar (img x y) target = true then
            fillLoop width height target repl fuel
              ((List.range' (extendLeft img y target x)
                  (extendRight img width y target x + 1 - extendLeft img y target x)).foldl
                (spanStep height target repl y) (img, rest)).1
              ((List.range' (extendLeft img y target x)
                  (extendRight img width y target x + 1 - extendLeft img y target x)).foldl
                (spanStep height target repl y) (img, rest)).2
          else fillLoop width height target repl fuel img rest) = some res := h
      by_cases hb : width ≤ x ∨ height ≤ y
      · rw [if_pos hb] at h'
        exact ih img rest res hinv h'
      · rw [if_neg hb] at h'
        by_cases hs : similar (img x y) target = true
        · rw [if_pos hs] at h'
          have hcols : ∀ i ∈ List.range' (extendLeft img y target x)
              (extendRight img width y target x + 1 - extendLeft img y target x),
              similar (img0 i y) target = true := by
            intro i hi
            have hib := List.mem_range'_1.mp hi
            have h1 := extendLeft_le img y target x
            have h2 := extendRight_ge img width y target x
            have hcur : similar (img i y) target = true := by
              rcases Nat.lt_trichotomy i x with hlt | heq | hgt
              · exact extendLeft_sim img y target x i hib.1 hlt
              · rw [heq]
                exact hs
              · exact extendRight_sim img width y target x i hgt (by omega)
            rcases hinv i y with hcase | hcase
            · rw [hcase] at hcur
              exact hcur
            · exact hcase.1
          exact ih _ _ res
            (spanFold_inv height target repl y img0 _ (img, rest) hcols hinv) h'
        · rw [if_neg hs] at h'
          exact ih img rest res hinv h'

/-- Claim C7: the flood-fill similarity test is componentwise on the RGB
channels with the alpha channel ignored (first conjunct, a
characterisation of `similar`; the default tolerance is 10, which is what
every call in `bucket_fill` uses), and whenever `bucket_fill` returns, a
pixel differs from its original colour only if its original colour passed
that test against the seed pixel's colour at tolerance 10 (second
conjunct). -/
theorem bucket_fill_similarity (width height fuel : Nat) (img : Image)
    (start_point : Nat × Nat) (pen_color : Color) (res : Image)
    (hres : bucket_fill width height img start_point pen_color fuel = some res) :
    (∀ c1 c2 tol, similar c1 c2 tol = true ↔
      (((c1.red : Int) - (c2.red : Int)).natAbs ≤ tol ∧
       ((c1.green : Int) - (c2.green : Int)).natAbs ≤ tol ∧
       ((c1.blue : Int) - (c2.blue : Int)).natAbs ≤ tol)) ∧
    (∀ x y, res x y ≠ img x y →
      similar (img x y) (img start_point.1 start_point.2) = true) := by
  constructor
  · intro c1 c2 tol
    simp [similar, Bool.and_eq_true, decide_eq_true_eq, and_assoc]
  · intro x y hne
    by_cases hg : img start_point.1 start_point.2 = pen_color
    · have heq : some img = some res := by
        rw [← hres]
        simp only [bucket_fill]
        rw [if_pos hg]
      cases heq
      exact absurd rfl hne
    · have h' : fillLoop width height (img start_point.1 start_point.2) pen_color fuel img
          [start_point] = some res := by
        have h0 := hres
        simp only [bucket_fill] at h0
        rw [if_neg hg] at h0
        exact h0
      have hinv : FillInv img (img start_point.1 start_point.2) pen_color res :=
        fillLoop_inv width height _ pen_color img fuel img [start_point] res
          (fun _ _ => Or.inl rfl) h'
      rcases hinv x y with hcase | hcase
      · exact absurd hcase hne
      · exact hcase.1

/-- Witness for C7: in the 3×3 scenario the centre pixel is recoloured,
and the theorem yields that its original colour (black) is similar to the
seed colour (black). -/
theorem bucket_fill_similarity_witness :
    similar ⟨0, 0, 0, 255⟩ ⟨0, 0, 0, 255⟩ = true := by
  rcases hO : bucket_fill 3 3 (fun _ _ => ⟨0, 0, 0, 255⟩) (1, 1) ⟨255, 0, 0, 255⟩ 16
    with _ | res
  · have hsome : (bucket_fill 3 3 (fun _ _ => ⟨0, 0, 0, 255⟩) (1, 1)
        ⟨255, 0, 0, 255⟩ 16).isSome = true := by decide
    rw [hO] at hsome
    cases hsome
  · have hval : res 1 1 = ⟨255, 0, 0, 255⟩ := by
      have h2 : (bucket_fill 3 3 (fun _ _ => ⟨0, 0, 0, 255⟩) (1, 1)
          ⟨255, 0, 0, 255⟩ 16).getD (fun _ _ => ⟨0, 0, 0, 255⟩) 1 1 = ⟨255, 0, 0, 255⟩ := by
        decide
      rw [hO] at h2
      exact h2
    have h := (bucket_fill_similarity 3 3 16 (fun _ _ => ⟨0, 0, 0, 255⟩) (1, 1)
      ⟨255, 0, 0, 255⟩ res hO).2 1 1
      (by
        rw [hval]
        intro hcontra
        exact absurd hcontra (by decide))
    exact h
